import Mathlib

/-!
Verification of the heuristic schema-inference and data-normalization
pipeline of `app.py` (dashboard generator): a shallow embedding of its
data model and operations, followed by theorems about the embedded code.

Modelling conventions:
* pandas DataFrames become `Table`: an ordered header of (name, dtype)
  pairs plus a list of rows; cell values are the tagged type `Val`
  (`vnull` stands for NaN/None/NaT).
* Python `str` operations on ASCII data are modelled on `List Char`
  (Python's Unicode-aware `\w` and `str.lower` are restricted to their
  ASCII behaviour, which covers every name the program manipulates).
* numeric cell values and sums are modelled as `ℚ`.
-/

namespace SalesDash

/-- Calendar date as produced by `pd.to_datetime` (time-of-day is never
used by the program). -/
structure PyDate where
  year : Nat
  month : Nat
  day : Nat
deriving DecidableEq

/-- Scalar cell value of a DataFrame; `vnull` models NaN/None/NaT. -/
inductive Val where
  | vnull
  | vnum (q : ℚ)
  | vstr (s : String)
  | vbool (b : Bool)
  | vdate (d : PyDate)
deriving DecidableEq

/-- Column dtype: `obj` models pandas object/string dtypes (text-typed,
including mixed text/null), `num` the numeric dtypes, `date` datetime64. -/
inductive Dtype where
  | obj
  | num
  | date
deriving DecidableEq

/-- A DataFrame: ordered named/typed columns and a list of rows. -/
structure Table where
  header : List (String × Dtype)
  rows : List (List Val)
deriving DecidableEq

/-- Column-name list of a table (`df.columns`). -/
def Table.names (t : Table) : List String := t.header.map Prod.fst

/-! ### Column standardizer (`standardize_columns`, app.py lines 24-35) -/

/-- ASCII model of Python `str.lower` on one character. -/
def pyToLower (c : Char) : Char :=
  if 65 ≤ c.toNat ∧ c.toNat ≤ 90 then Char.ofNat (c.toNat + 32) else c

/-- ASCII model of the regex class `\w`: letter, digit or underscore. -/
def isWordChar (c : Char) : Bool := c.isAlphanum || c = '_'

/-- Model of `str.replace(a, b)` for one-character patterns, per char. -/
def replChar (a b c : Char) : Char := if c = a then b else c

/-- Model of `str.strip()`: drop leading and trailing whitespace. -/
def stripChars (l : List Char) : List Char :=
  ((l.dropWhile Char.isWhitespace).reverse.dropWhile Char.isWhitespace).reverse

/-- The column-name transformation of `standardize_columns`:
strip, lower, space→underscore, hyphen→underscore, drop non-`\w`. -/
def canonChars (l : List Char) : List Char :=
  ((((stripChars l).map pyToLower).map (replChar ' ' '_')).map
    (replChar '-' '_')).filter isWordChar

/-- `standardize_columns` on one column name. -/
def standardizeName (s : String) : String := String.mk (canonChars s.toList)

/-- `standardize_columns` (app.py lines 24-35): canonicalize every column
name; rows are untouched. -/
def standardize_columns (t : Table) : Table :=
  { header := t.header.map (fun p => (standardizeName p.1, p.2)), rows := t.rows }

/-! #### Idempotence of the standardizer -/

theorem charToNat_ofNat_valid (n : Nat) (h : n.isValidChar) :
    (Char.ofNat n).toNat = n := by
  rw [Char.ofNat, dif_pos h]
  rfl

/-- Output characters of `pyToLower` are never ASCII uppercase. -/
theorem pyToLower_not_upper (c : Char) :
    ¬ (65 ≤ (pyToLower c).toNat ∧ (pyToLower c).toNat ≤ 90) := by
  unfold pyToLower
  split
  · next h => rw [charToNat_ofNat_valid _ (Or.inl (by omega))]; omega
  · next h => omega

theorem pyToLower_fix (c : Char) (h : ¬ (65 ≤ c.toNat ∧ c.toNat ≤ 90)) :
    pyToLower c = c := by
  unfold pyToLower
  rw [if_neg h]

theorem replChar_underscore_not_upper (a x : Char)
    (h : ¬ (65 ≤ x.toNat ∧ x.toNat ≤ 90)) :
    ¬ (65 ≤ (replChar a '_' x).toNat ∧ (replChar a '_' x).toNat ≤ 90) := by
  unfold replChar
  split
  · decide
  · exact h

theorem isWordChar_not_ws (c : Char) (h : isWordChar c = true) :
    c.isWhitespace = false := by
  have h1 : c ≠ ' ' := by rintro rfl; exact absurd h (by decide)
  have h2 : c ≠ '\t' := by rintro rfl; exact absurd h (by decide)
  have h3 : c ≠ '\r' := by rintro rfl; exact absurd h (by decide)
  have h4 : c ≠ '\n' := by rintro rfl; exact absurd h (by decide)
  simp [Char.isWhitespace, h1, h2, h3, h4]

theorem isWordChar_ne_space (c : Char) (h : isWordChar c = true) : c ≠ ' ' := by
  rintro rfl; exact absurd h (by decide)

theorem isWordChar_ne_hyphen (c : Char) (h : isWordChar c = true) : c ≠ '-' := by
  rintro rfl; exact absurd h (by decide)

theorem dropWhile_all_false {α : Type} (p : α → Bool) (l : List α)
    (h : ∀ x ∈ l, p x = false) : l.dropWhile p = l := by
  cases l with
  | nil => rfl
  | cons a l =>
    rw [List.dropWhile_cons_of_neg]
    simp [h a (List.mem_cons_self a l)]

theorem map_id_of {α : Type} (f : α → α) (l : List α)
    (h : ∀ x ∈ l, f x = x) : l.map f = l := by
  induction l with
  | nil => rfl
  | cons a l ih =>
    simp only [List.map_cons, h a (List.mem_cons_self a l)]
    rw [ih fun x hx => h x (List.mem_cons_of_mem a hx)]

theorem mem_canonChars_word {l : List Char} {c : Char} (hc : c ∈ canonChars l) :
    isWordChar c = true :=
  (List.mem_filter.mp hc).2

theorem mem_canonChars_lower {l : List Char} {c : Char} (hc : c ∈ canonChars l) :
    pyToLower c = c := by
  have hmem := (List.mem_filter.mp hc).1
  simp only [List.mem_map] at hmem
  obtain ⟨x, ⟨y, ⟨z, _, rfl⟩, rfl⟩, rfl⟩ := hmem
  exact pyToLower_fix _
    (replChar_underscore_not_upper _ _
      (replChar_underscore_not_upper _ _ (pyToLower_not_upper z)))

theorem canonChars_idem (l : List Char) : canonChars (canonChars l) = canonChars l := by
  have hword : ∀ c ∈ canonChars l, isWordChar c = true := fun c hc => mem_canonChars_word hc
  have hstrip : stripChars (canonChars l) = canonChars l := by
    unfold stripChars
    rw [dropWhile_all_false _ _ (fun x hx => isWordChar_not_ws x (hword x hx)),
      dropWhile_all_false _ _ (fun x hx =>
        isWordChar_not_ws x (hword x (List.mem_reverse.mp hx))),
      List.reverse_reverse]
  have h1 : (canonChars l).map pyToLower = canonChars l :=
    map_id_of _ _ fun c hc => mem_canonChars_lower hc
  have h2 : (canonChars l).map (replChar ' ' '_') = canonChars l :=
    map_id_of _ _ fun c hc => by
      unfold replChar; rw [if_neg (isWordChar_ne_space c (hword c hc))]
  have h3 : (canonChars l).map (replChar '-' '_') = canonChars l :=
    map_id_of _ _ fun c hc => by
      unfold replChar; rw [if_neg (isWordChar_ne_hyphen c (hword c hc))]
  show ((((stripChars (canonChars l)).map pyToLower).map (replChar ' ' '_')).map
      (replChar '-' '_')).filter isWordChar = canonChars l
  rw [hstrip, h1, h2, h3, List.filter_eq_self.mpr hword]

theorem standardizeName_idem (s : String) :
    standardizeName (standardizeName s) = standardizeName s := by
  unfold standardizeName
  have : (String.mk (canonChars s.toList)).toList = canonChars s.toList := rfl
  rw [this, canonChars_idem]

/-- C4: column standardization is idempotent, on whole tables and on
single canonical names. -/
theorem standardize_columns_idem :
    (∀ t : Table, standardize_columns (standardize_columns t) = standardize_columns t) ∧
    (∀ s : String, standardizeName (standardizeName s) = standardizeName s) := by
  constructor
  · intro t
    simp only [standardize_columns, List.map_map]
    congr 1
    exact List.map_congr_left fun p _ => by
      simp [Function.comp, standardizeName_idem]
  · exact standardizeName_idem

/-! ### Table cleaner (`clean_table`, app.py lines 37-50) -/

/-- Cell of a row at column index `i` (missing positions read as null). -/
def cellAt (i : Nat) (r : List Val) : Val := r.getD i Val.vnull

/-- Model of `DataFrame.drop_duplicates()`: keep the first occurrence of
each row, preserving order; `seen` accumulates rows already emitted. -/
def dedupFirstAux {α : Type} [DecidableEq α] (seen : List α) : List α → List α
  | [] => []
  | a :: as =>
    if a ∈ seen then dedupFirstAux seen as
    else a :: dedupFirstAux (a :: seen) as

def dedupFirst {α : Type} [DecidableEq α] (l : List α) : List α := dedupFirstAux [] l

/-- Fill step of `clean_table` on one cell: nulls of object/string-typed
columns become the sentinel `"Desconocido"`; all other cells unchanged. -/
def fillVal (dt : Dtype) (v : Val) : Val :=
  if dt = Dtype.obj ∧ v = Val.vnull then Val.vstr "Desconocido" else v

/-- Fill step of `clean_table` on one row, column dtypes given positionally. -/
def fillRow : List Dtype → List Val → List Val
  | _, [] => []
  | [], vs => vs
  | dt :: dts, v :: vs => fillVal dt v :: fillRow dts vs

structure CleaningReport where
  rows_before : Nat
  rows_after : Nat
  deduplicated : Nat
deriving DecidableEq

/-- `clean_table` (app.py lines 37-50): standardize column names, drop
duplicate rows, fill nulls of object/string columns with `"Desconocido"`,
and report the deduplication effect. -/
def clean_table (t : Table) : Table × CleaningReport :=
  let t1 := standardize_columns t
  let before := t1.rows.length
  let rows2 := dedupFirst t1.rows
  let rows3 := rows2.map (fillRow (t1.header.map Prod.snd))
  ({ header := t1.header, rows := rows3 },
   { rows_before := before, rows_after := rows3.length,
     deduplicated := before - rows3.length })

/-! #### Dedup and fill lemmas -/

theorem length_dedupFirstAux_le {α : Type} [DecidableEq α] (seen : List α) :
    ∀ l : List α, (dedupFirstAux seen l).length ≤ l.length := by
  intro l
  induction l generalizing seen with
  | nil => simp [dedupFirstAux]
  | cons a as ih =>
    rw [dedupFirstAux]
    split
    · exact Nat.le_succ_of_le (ih seen)
    · simpa using Nat.succ_le_succ (ih (a :: seen))

theorem mem_dedupFirstAux {α : Type} [DecidableEq α] {a : α} :
    ∀ {seen l : List α}, (a ∈ dedupFirstAux seen l ↔ a ∈ l ∧ a ∉ seen) := by
  intro seen l
  induction l generalizing seen with
  | nil => simp [dedupFirstAux]
  | cons b bs ih =>
    rw [dedupFirstAux]
    split
    · next hb =>
      rw [ih]
      constructor
      · rintro ⟨h1, h2⟩; exact ⟨List.mem_cons_of_mem b h1, h2⟩
      · rintro ⟨h1, h2⟩
        rcases List.mem_cons.mp h1 with rfl | h1
        · exact absurd hb h2
        · exact ⟨h1, h2⟩
    · next hb =>
      simp only [List.mem_cons, ih]
      constructor
      · rintro (rfl | ⟨h1, h2⟩)
        · exact ⟨Or.inl rfl, hb⟩
        · exact ⟨Or.inr h1, fun hs => h2 (Or.inr hs)⟩
      · rintro ⟨rfl | h1, h2⟩
        · exact Or.inl rfl
        · by_cases hab : a = b
          · exact Or.inl hab
          · exact Or.inr ⟨h1, by simp [hab, h2]⟩

theorem nodup_dedupFirstAux {α : Type} [DecidableEq α] :
    ∀ (seen l : List α), (dedupFirstAux seen l).Nodup := by
  intro seen l
  induction l generalizing seen with
  | nil => simp [dedupFirstAux]
  | cons b bs ih =>
    rw [dedupFirstAux]
    split
    · exact ih seen
    · refine List.nodup_cons.mpr ⟨fun hmem => ?_, ih (b :: seen)⟩
      exact (mem_dedupFirstAux.mp hmem).2 (List.mem_cons_self b seen)

theorem nodup_dedupFirst {α : Type} [DecidableEq α] (l : List α) :
    (dedupFirst l).Nodup := nodup_dedupFirstAux [] l

theorem mem_dedupFirst {α : Type} [DecidableEq α] {a : α} {l : List α} :
    a ∈ dedupFirst l ↔ a ∈ l := by
  rw [dedupFirst, mem_dedupFirstAux]
  simp

theorem dedupFirstAux_of_nodup {α : Type} [DecidableEq α] :
    ∀ (seen l : List α), l.Nodup → (∀ x ∈ l, x ∉ seen) →
      dedupFirstAux seen l = l := by
  intro seen l
  induction l generalizing seen with
  | nil => intro _ _; rfl
  | cons b bs ih =>
    intro hnd hdisj
    rw [dedupFirstAux, if_neg (hdisj b (List.mem_cons_self b bs))]
    rw [ih (b :: seen) (List.nodup_cons.mp hnd).2]
    intro x hx hmem
    rcases List.mem_cons.mp hmem with rfl | h
    · exact (List.nodup_cons.mp hnd).1 hx
    · exact hdisj x (List.mem_cons_of_mem b hx) h

theorem dedupFirst_of_nodup {α : Type} [DecidableEq α] {l : List α}
    (h : l.Nodup) : dedupFirst l = l :=
  dedupFirstAux_of_nodup [] l h (by simp)

theorem fillRow_length : ∀ (dts : List Dtype) (r : List Val),
    (fillRow dts r).length = r.length
  | _, [] => by cases ‹List Dtype› <;> rfl
  | [], _ :: _ => rfl
  | _ :: dts, _ :: vs => by simp [fillRow, fillRow_length dts vs]

theorem fillRow_cellAt : ∀ (dts : List Dtype) (r : List Val) (i : Nat),
    i < r.length →
    cellAt i (fillRow dts r) = fillVal (dts.getD i Dtype.num) (cellAt i r)
  | _, [], i => by intro h; simp at h
  | [], v :: vs, i => by
    intro _
    show cellAt i (v :: vs) = fillVal (([] : List Dtype).getD i Dtype.num) (cellAt i (v :: vs))
    simp [fillVal]
  | dt :: dts, v :: vs, 0 => by intro _; simp [fillRow, cellAt]
  | dt :: dts, v :: vs, i + 1 => by
    intro h
    have := fillRow_cellAt dts vs i (by simpa using h)
    simpa [fillRow, cellAt] using this

theorem standardize_dtypes (t : Table) :
    (standardize_columns t).header.map Prod.snd = t.header.map Prod.snd := by
  simp only [standardize_columns, List.map_map]
  exact List.map_congr_left fun p _ => rfl

/-! ### Role classifier (app.py lines 87-88 and 100-102) -/

/-- Whether `needle` occurs at the head of `hay`. -/
def leadMatch : List Char → List Char → Bool
  | [], _ => true
  | _ :: _, [] => false
  | a :: as, b :: bs => a = b && leadMatch as bs

/-- Whether `needle` occurs contiguously anywhere in `hay`
(Python's `needle in hay` on strings). -/
def occursIn (needle : List Char) : List Char → Bool
  | [] => needle.isEmpty
  | c :: cs => leadMatch needle (c :: cs) || occursIn needle cs

/-- Python's `k in c` substring test: `strContains c k`. -/
def strContains (hay needle : String) : Bool := occursIn needle.toList hay.toList

/-- `any(k in c for k in kws)`. -/
def matchesKw (kws : List String) (c : String) : Bool :=
  kws.any fun k => strContains c k

/-- `col_monto` (app.py line 87): first column whose canonical name
contains one of the amount keywords. -/
def col_monto (cols : List String) : Option String :=
  cols.find? (matchesKw ["venta", "monto", "total", "ingreso"])

/-- `col_fecha` (app.py line 88). -/
def col_fecha (cols : List String) : Option String :=
  cols.find? (matchesKw ["fecha", "date"])

/-- `posibles_productos` (app.py lines 100 and 150). -/
def posibles_productos (cols : List String) : List String :=
  cols.filter (matchesKw ["producto", "item", "articulo", "sku"])

/-- `posibles_locales` (app.py lines 101 and 151). -/
def posibles_locales (cols : List String) : List String :=
  cols.filter (matchesKw ["local", "tienda", "sucursal"])

/-- `posibles_regiones` (app.py lines 102 and 152). -/
def posibles_regiones (cols : List String) : List String :=
  cols.filter (matchesKw ["region", "ciudad", "zona", "pais"])

inductive Role where
  | amount
  | date
  | product
  | location
  | region
deriving DecidableEq

/-- The keyword lists the code actually uses, per role. -/
def roleKeywords : Role → List String
  | .amount => ["venta", "monto", "total", "ingreso"]
  | .date => ["fecha", "date"]
  | .product => ["producto", "item", "articulo", "sku"]
  | .location => ["local", "tienda", "sucursal"]
  | .region => ["region", "ciudad", "zona", "pais"]

/-- Keyword lists as the specification words them (amount: sale, amount,
total, revenue; date: date; product: product, item, article, sku;
location: store, shop, branch; region: region, city, zone, country),
kept separate from the code's `roleKeywords` for the refinement
comparison of claim C2. -/
def specRoleKeywords : Role → List String
  | .amount => ["sale", "amount", "total", "revenue"]
  | .date => ["date"]
  | .product => ["product", "item", "article", "sku"]
  | .location => ["store", "shop", "branch"]
  | .region => ["region", "city", "zone", "country"]

/-- First column (in table order) matching any keyword of the list. -/
def firstMatch (kws : List String) (cols : List String) : Option String :=
  cols.find? (matchesKw kws)

/-- The classifier's answer per role: `col_monto`/`col_fecha` are direct
first matches; product/location/region are the head of the corresponding
`posibles_*` filtered list (the `[0]` the code takes downstream). -/
def classifyRole (r : Role) (cols : List String) : Option String :=
  match r with
  | .amount => col_monto cols
  | .date => col_fecha cols
  | .product => (posibles_productos cols).head?
  | .location => (posibles_locales cols).head?
  | .region => (posibles_regiones cols).head?

theorem head?_filter {α : Type} (p : α → Bool) (l : List α) :
    (l.filter p).head? = l.find? p := by
  induction l with
  | nil => rfl
  | cons a l ih => by_cases h : p a <;> simp [List.filter_cons, List.find?_cons, h, ih]

theorem classifyRole_eq_firstMatch (r : Role) (cols : List String) :
    classifyRole r cols = firstMatch (roleKeywords r) cols := by
  cases r <;>
    simp [classifyRole, col_monto, col_fecha, posibles_productos,
      posibles_locales, posibles_regiones, firstMatch, roleKeywords, head?_filter]

theorem find?_some_decomp {α : Type} (p : α → Bool) :
    ∀ (l : List α) (c : α), l.find? p = some c →
      p c = true ∧ ∃ l₁ l₂, l = l₁ ++ c :: l₂ ∧ ∀ x ∈ l₁, p x = false := by
  intro l
  induction l with
  | nil => intro c h; simp [List.find?] at h
  | cons a l ih =>
    intro c h
    rw [List.find?_cons] at h
    split at h
    · next ha =>
      obtain rfl : a = c := by simpa using h
      exact ⟨ha, [], l, rfl, by simp⟩
    · next ha =>
      obtain ⟨hc, l₁, l₂, rfl, hall⟩ := ih c h
      refine ⟨hc, a :: l₁, l₂, rfl, ?_⟩
      intro x hx
      rcases List.mem_cons.mp hx with rfl | hx
      · simpa using ha
      · exact hall x hx

/-! ### Claims C2, C3, C5 -/

/-- C2 (counterexample): on the column list `["fecha"]` the code's
classifier resolves the date role to `fecha`, while the claim's keyword
set for the date role (just `date`) matches no column, so the claim's
predicted assignment (none) is wrong. -/
theorem classifier_spec_keywords_false :
    classifyRole Role.date ["fecha"] = some "fecha" ∧
    firstMatch (specRoleKeywords Role.date) ["fecha"] = none := by
  constructor <;> decide

/-- C2 (amended): per role, the classifier returns the first column (in
table column order) whose name contains any keyword of the code's fixed
set for that role — amount: venta, monto, total, ingreso; date: fecha,
date; product: producto, item, articulo, sku; location: local, tienda,
sucursal; region: region, ciudad, zona, pais — and none when no column
matches. -/
theorem classifyRole_first_match (r : Role) (cols : List String) :
    (classifyRole r cols = none ↔ ∀ c ∈ cols, matchesKw (roleKeywords r) c = false) ∧
    (∀ c, classifyRole r cols = some c →
      matchesKw (roleKeywords r) c = true ∧
      ∃ pre post, cols = pre ++ c :: post ∧
        ∀ x ∈ pre, matchesKw (roleKeywords r) x = false) := by
  rw [classifyRole_eq_firstMatch]
  constructor
  · rw [firstMatch, List.find?_eq_none]
    constructor
    · intro h c hc; simpa using h c hc
    · intro h c hc; simp [h c hc]
  · intro c hc
    exact find?_some_decomp _ cols c hc

/-- C2 (witness): the amended characterization at a concrete column list. -/
theorem classifyRole_first_match_witness :
    (classifyRole Role.amount ["cliente", "monto_total"] = none ↔
      ∀ c ∈ ["cliente", "monto_total"],
        matchesKw (roleKeywords Role.amount) c = false) ∧
    (∀ c, classifyRole Role.amount ["cliente", "monto_total"] = some c →
      matchesKw (roleKeywords Role.amount) c = true ∧
      ∃ pre post, ["cliente", "monto_total"] = pre ++ c :: post ∧
        ∀ x ∈ pre, matchesKw (roleKeywords Role.amount) x = false) :=
  classifyRole_first_match Role.amount ["cliente", "monto_total"]

/-- C3 (counterexample): a null in a text column is filled with the
sentinel `"Desconocido"`, not `"Unknown"` as the claim states. -/
theorem clean_table_sentinel_not_unknown :
    (clean_table ⟨[("nombre", Dtype.obj)], [[Val.vnull]]⟩).1.rows ≠
      [[Val.vstr "Unknown"]] ∧
    (clean_table ⟨[("nombre", Dtype.obj)], [[Val.vnull]]⟩).1.rows =
      [[Val.vstr "Desconocido"]] := by
  constructor <;> decide

/-- C3 (amended): after deduplication, every cell of the cleaned table
equals the corresponding deduplicated cell, except that nulls in
object/string-typed (text) columns become the sentinel `"Desconocido"`;
numeric and date columns keep their missing values intact. -/
theorem clean_table_fill_cells (t : Table) (j i : Nat)
    (hj : j < (dedupFirst t.rows).length)
    (hi : i < ((dedupFirst t.rows).getD j []).length) :
    (clean_table t).1.rows.length = (dedupFirst t.rows).length ∧
    cellAt i ((clean_table t).1.rows.getD j []) =
      (if (t.header.map Prod.snd).getD i Dtype.num = Dtype.obj ∧
          cellAt i ((dedupFirst t.rows).getD j []) = Val.vnull
        then Val.vstr "Desconocido"
        else cellAt i ((dedupFirst t.rows).getD j [])) := by
  have hrows : (clean_table t).1.rows =
      (dedupFirst t.rows).map (fillRow (t.header.map Prod.snd)) := by
    show (dedupFirst (standardize_columns t).rows).map
        (fillRow ((standardize_columns t).header.map Prod.snd)) = _
    rw [standardize_dtypes]
    rfl
  constructor
  · rw [hrows, List.length_map]
  · rw [hrows]
    have hj' : j < ((dedupFirst t.rows).map (fillRow (t.header.map Prod.snd))).length := by
      simpa using hj
    rw [List.getD_eq_getElem _ _ hj', List.getElem_map,
      ← List.getD_eq_getElem _ [] hj]
    rw [fillRow_cellAt _ _ _ hi]
    rfl

/-- C3 (witness): the amended cell description at a concrete table with a
text null, a text value and an untouched numeric null. -/
theorem clean_table_fill_cells_witness :
    (clean_table ⟨[("producto", Dtype.obj), ("monto", Dtype.num)],
        [[Val.vnull, Val.vnull]]⟩).1.rows.length =
      (dedupFirst [[Val.vnull, Val.vnull]]).length ∧
    cellAt 0 ((clean_table ⟨[("producto", Dtype.obj), ("monto", Dtype.num)],
        [[Val.vnull, Val.vnull]]⟩).1.rows.getD 0 []) =
      (if ([Dtype.obj, Dtype.num].getD 0 Dtype.num = Dtype.obj ∧
          cellAt 0 ((dedupFirst [[Val.vnull, Val.vnull]]).getD 0 []) = Val.vnull)
        then Val.vstr "Desconocido"
        else cellAt 0 ((dedupFirst [[Val.vnull, Val.vnull]]).getD 0 [])) :=
  clean_table_fill_cells
    ⟨[("producto", Dtype.obj), ("monto", Dtype.num)], [[Val.vnull, Val.vnull]]⟩
    0 0 (by decide) (by decide)

/-- C5 (counterexample): on a text column holding a null and the literal
sentinel `"Desconocido"`, cleaning maps both rows to the same filled row,
so re-cleaning the already-cleaned table reports `deduplicated = 1`,
refuting the claim that it is always 0. -/
theorem reclean_deduplicated_ne_zero :
    (clean_table (clean_table ⟨[("c", Dtype.obj)],
        [[Val.vnull], [Val.vstr "Desconocido"]]⟩).1).2.deduplicated ≠ 0 ∧
    (clean_table (clean_table ⟨[("c", Dtype.obj)],
        [[Val.vnull], [Val.vstr "Desconocido"]]⟩).1).2.deduplicated = 1 := by
  constructor <;> decide

theorem fillVal_of_ne_obj {dt : Dtype} (h : dt ≠ Dtype.obj) (v : Val) :
    fillVal dt v = v := by
  rw [fillVal, if_neg]
  rintro ⟨rfl, _⟩
  exact h rfl

theorem fillRow_inj_on (dts : List Dtype) (r1 r2 : List Val)
    (h1 : ∀ i < dts.length, dts.getD i Dtype.num = Dtype.obj →
      cellAt i r1 ≠ Val.vstr "Desconocido")
    (h2 : ∀ i < dts.length, dts.getD i Dtype.num = Dtype.obj →
      cellAt i r2 ≠ Val.vstr "Desconocido")
    (heq : fillRow dts r1 = fillRow dts r2) : r1 = r2 := by
  have hlen : r1.length = r2.length := by
    rw [← fillRow_length dts r1, ← fillRow_length dts r2, heq]
  apply List.ext_getElem hlen
  intro i hi1 hi2
  have hc : fillVal (dts.getD i Dtype.num) (cellAt i r1) =
      fillVal (dts.getD i Dtype.num) (cellAt i r2) := by
    rw [← fillRow_cellAt dts r1 i hi1, ← fillRow_cellAt dts r2 i hi2, heq]
  have hgoal : cellAt i r1 = cellAt i r2 := by
    by_cases hobj : dts.getD i Dtype.num = Dtype.obj
    · have hilen : i < dts.length := by
        by_contra hge
        rw [List.getD_eq_default _ _ (Nat.le_of_not_lt hge)] at hobj
        exact Dtype.noConfusion hobj
      have hs1 := h1 i hilen hobj
      have hs2 := h2 i hilen hobj
      rw [hobj] at hc
      by_cases hn1 : cellAt i r1 = Val.vnull <;>
        by_cases hn2 : cellAt i r2 = Val.vnull <;>
        simp [fillVal, hn1, hn2] at hc <;> simp_all
    · rwa [fillVal_of_ne_obj hobj, fillVal_of_ne_obj hobj] at hc
  rw [cellAt, cellAt, List.getD_eq_getElem _ Val.vnull hi1,
    List.getD_eq_getElem _ Val.vnull hi2] at hgoal
  exact hgoal

/-- C5 (amended): cleaning never increases the row count; and re-cleaning
an already-cleaned table yields `deduplicated = 0` provided no text-typed
cell of the original table already holds the fill sentinel
`"Desconocido"` (otherwise the fill step can merge previously distinct
rows, as the counterexample shows). -/
theorem clean_table_dedup_props (t : Table) :
    (clean_table t).2.rows_after ≤ (clean_table t).2.rows_before ∧
    ((∀ r ∈ t.rows, ∀ i < t.header.length,
        (t.header.map Prod.snd).getD i Dtype.num = Dtype.obj →
        cellAt i r ≠ Val.vstr "Desconocido") →
      (clean_table (clean_table t).1).2.deduplicated = 0) := by
  constructor
  · show ((dedupFirst (standardize_columns t).rows).map _).length ≤
      (standardize_columns t).rows.length
    rw [List.length_map]
    exact length_dedupFirstAux_le [] _
  · intro h
    have hdtslen : (t.header.map Prod.snd).length = t.header.length :=
      List.length_map _ _
    have hrows1 : (clean_table t).1.rows =
        (dedupFirst t.rows).map (fillRow (t.header.map Prod.snd)) := by
      show (dedupFirst (standardize_columns t).rows).map
          (fillRow ((standardize_columns t).header.map Prod.snd)) = _
      rw [standardize_dtypes]
      rfl
    have hnodup : (clean_table t).1.rows.Nodup := by
      rw [hrows1]
      refine List.Nodup.map_on ?_ (nodup_dedupFirst t.rows)
      intro r1 hr1 r2 hr2 heq
      refine fillRow_inj_on _ r1 r2 ?_ ?_ heq
      · intro i hilt
        exact h r1 (mem_dedupFirst.mp hr1) i (hdtslen ▸ hilt)
      · intro i hilt
        exact h r2 (mem_dedupFirst.mp hr2) i (hdtslen ▸ hilt)
    show (standardize_columns (clean_table t).1).rows.length -
        ((dedupFirst (standardize_columns (clean_table t).1).rows).map _).length = 0
    rw [List.length_map]
    have : (standardize_columns (clean_table t).1).rows = (clean_table t).1.rows := rfl
    rw [this, dedupFirst_of_nodup hnodup, Nat.sub_self]

/-- C5 (witness): both parts at a concrete table whose text column holds
a null and an ordinary value. -/
theorem clean_table_dedup_props_witness :
    (clean_table ⟨[("c", Dtype.obj)], [[Val.vnull], [Val.vstr "a"]]⟩).2.rows_after ≤
      (clean_table ⟨[("c", Dtype.obj)], [[Val.vnull], [Val.vstr "a"]]⟩).2.rows_before ∧
    (clean_table (clean_table ⟨[("c", Dtype.obj)],
        [[Val.vnull], [Val.vstr "a"]]⟩).1).2.deduplicated = 0 :=
  ⟨(clean_table_dedup_props ⟨[("c", Dtype.obj)], [[Val.vnull], [Val.vstr "a"]]⟩).1,
   (clean_table_dedup_props ⟨[("c", Dtype.obj)], [[Val.vnull], [Val.vstr "a"]]⟩).2
     (by decide)⟩

/-! ### Temporal normalizer and filter engine (app.py lines 107-130) -/

/-- Modelled from the spec (library collaborator): `pd.to_datetime` with
`errors='coerce'` on one ISO `YYYY-MM-DD` string; anything else — e.g.
the string `"N/A"` — fails to parse. -/
def parseDateStr (s : String) : Option PyDate :=
  match s.splitOn "-" with
  | [y, m, d] =>
    match y.toNat?, m.toNat?, d.toNat? with
    | some yn, some mn, some dn =>
      if 1 ≤ mn ∧ mn ≤ 12 ∧ 1 ≤ dn ∧ dn ≤ 31 then some ⟨yn, mn, dn⟩ else none
    | _, _, _ => none
  | _ => none

/-- Date parse of one cell: dates pass through, strings parse as ISO
dates, nulls and everything else coerce to failure (NaT). -/
def parseDate (v : Val) : Option PyDate :=
  match v with
  | .vdate d => some d
  | .vstr s => parseDateStr s
  | _ => none

/-- `pd.to_datetime(col, errors='coerce')` on one cell: parse failures
become null (NaT). -/
def coerceDate (v : Val) : Val :=
  match parseDate v with
  | some d => Val.vdate d
  | none => Val.vnull

/-- Index of a named column in the header (header length if absent). -/
def colIdx (t : Table) (c : String) : Nat := t.header.findIdx fun p => p.1 == c

/-- Year attribute derived from the (already coerced) date cell. -/
def yearVal (i : Nat) (r : List Val) : Val :=
  match cellAt i r with
  | .vdate d => Val.vnum d.year
  | _ => Val.vnull

/-- Temporal normalization (app.py lines 107-109): coerce the resolved
date column, drop rows whose date failed to parse, and assign the
derived year column `año` (overwriting it if a column of that name
already exists, appending it otherwise, as the pandas column assignment
does). -/
def temporalNormalize (t : Table) (c : String) : Table :=
  let i := colIdx t c
  let hdr1 := t.header.set i (c, Dtype.date)
  let rows1 := t.rows.map fun r => r.set i (coerceDate (cellAt i r))
  let rows2 := rows1.filter fun r => decide (cellAt i r ≠ Val.vnull)
  if "año" ∈ hdr1.map Prod.fst then
    let j := hdr1.findIdx fun p => p.1 == "año"
    { header := hdr1.set j ("año", Dtype.num),
      rows := rows2.map fun r => r.set j (yearVal i r) }
  else
    { header := hdr1 ++ [("año", Dtype.num)],
      rows := rows2.map fun r => r ++ [yearVal i r] }

/-- Year filter (app.py lines 113-114): keep rows whose `año` equals the
selected year; the header is untouched. -/
def filterYear (t : Table) (y : Int) : Table :=
  { header := t.header,
    rows := t.rows.filter fun r => decide (cellAt (colIdx t "año") r = Val.vnum (y : ℚ)) }

/-- Set-membership filter (app.py lines 117-130): keep rows whose value
in column `c` lies in the selection; the header is untouched. -/
def filterIsin (t : Table) (c : String) (sel : List Val) : Table :=
  { header := t.header,
    rows := t.rows.filter fun r => decide (cellAt (colIdx t c) r ∈ sel) }

/-! #### Header bookkeeping lemmas -/

theorem names_set_colIdx (hdr : List (String × Dtype)) (c : String) (dt : Dtype) :
    (hdr.set (hdr.findIdx fun p => p.1 == c) (c, dt)).map Prod.fst =
      hdr.map Prod.fst := by
  induction hdr with
  | nil => rfl
  | cons p hdr ih =>
    rw [List.findIdx_cons]
    by_cases hp : p.1 == c
    · simp only [hp, cond_true, List.set_cons_zero, List.map_cons]
      rw [beq_iff_eq.mp hp]
    · simp only [hp, cond_false, List.set_cons_succ, List.map_cons, ih]

theorem findIdx_append_all_false {α : Type} (p : α → Bool) (l l' : List α)
    (h : ∀ x ∈ l, p x = false) :
    (l ++ l').findIdx p = l.length + l'.findIdx p := by
  induction l with
  | nil => simp
  | cons a l ih =>
    rw [List.cons_append, List.findIdx_cons, h a (List.mem_cons_self a l)]
    simp only [cond_false, List.length_cons]
    rw [ih fun x hx => h x (List.mem_cons_of_mem a hx)]
    omega

theorem getD_set_self (l : List Val) (i : Nat) (v : Val) (h : i < l.length) :
    cellAt i (l.set i v) = v := by
  rw [cellAt, List.getD_eq_getElem _ _ (by simpa using h)]
  exact List.getElem_set_self _

theorem cellAt_append_left (l l' : List Val) (i : Nat) (h : i < l.length) :
    cellAt i (l ++ l') = cellAt i l := by
  rw [cellAt, cellAt, List.getD_eq_getElem?_getD, List.getD_eq_getElem?_getD,
    List.getElem?_append_left h]

theorem cellAt_concat_self (l : List Val) (v : Val) :
    cellAt l.length (l ++ [v]) = v := by
  rw [cellAt, List.getD_eq_getElem _ _ (by simp)]
  exact List.getElem_concat_length l v l.length rfl _

/-- The header names after temporal normalization: names are preserved
and `año` is appended when not already present. -/
theorem temporalNormalize_names (t : Table) (c : String) :
    ("año" ∈ (temporalNormalize t c).names) ∧
    ("año" ∉ t.names →
      (temporalNormalize t c).names = t.names ++ ["año"]) := by
  have hset : (t.header.set (colIdx t c) (c, Dtype.date)).map Prod.fst = t.names :=
    names_set_colIdx t.header c Dtype.date
  unfold temporalNormalize
  simp only
  split
  · next hmem =>
    rw [hset] at hmem
    constructor
    · show "año" ∈ (List.set _ _ _).map Prod.fst
      rw [names_set_colIdx, hset]
      exact hmem
    · intro hno; exact absurd hmem hno
  · next hmem =>
    constructor
    · show "año" ∈ (_ ++ [("año", Dtype.num)]).map Prod.fst
      rw [List.map_append]
      exact List.mem_append_right _ (by simp)
    · intro _
      show (_ ++ [("año", Dtype.num)]).map Prod.fst = _
      rw [List.map_append, hset]
      rfl

theorem names_set_colIdx2 (t : Table) (c : String) (dt : Dtype) :
    (t.header.set (colIdx t c) (c, dt)).map Prod.fst = t.names :=
  names_set_colIdx t.header c dt

theorem decide_coerce_ne_null (v : Val) :
    (decide (coerceDate v ≠ Val.vnull)) = (parseDate v).isSome := by
  unfold coerceDate
  cases parseDate v <;> simp

theorem colIdx_lt_length {t : Table} {c : String} (hc : c ∈ t.names) :
    colIdx t c < t.header.length := by
  obtain ⟨p, hp, he⟩ := List.mem_map.mp hc
  exact List.findIdx_lt_length_of_exists ⟨p, hp, by simp [he]⟩

/-- C7: temporal normalization parses the resolved date column, drops
exactly the rows whose value fails to parse (e.g. the string `"N/A"`),
and derives the year attribute `año` from the parsed date on every
surviving row. -/
theorem temporalNormalize_drops (t : Table) (c : String)
    (hrect : ∀ r ∈ t.rows, r.length = t.header.length)
    (hc : c ∈ t.names) (hna : "año" ∉ t.names) :
    (temporalNormalize t c).rows.length =
      (t.rows.filter fun r => (parseDate (cellAt (colIdx t c) r)).isSome).length ∧
    ∀ r' ∈ (temporalNormalize t c).rows, ∃ d : PyDate,
      cellAt (colIdx t c) r' = Val.vdate d ∧
      cellAt (colIdx (temporalNormalize t c) "año") r' = Val.vnum (d.year : ℚ) := by
  have hi : colIdx t c < t.header.length := colIdx_lt_length hc
  have htn : temporalNormalize t c =
      { header := (t.header.set (colIdx t c) (c, Dtype.date)) ++ [("año", Dtype.num)],
        rows := ((t.rows.map fun r =>
            r.set (colIdx t c) (coerceDate (cellAt (colIdx t c) r))).filter
          fun r => decide (cellAt (colIdx t c) r ≠ Val.vnull)).map
          fun r => r ++ [yearVal (colIdx t c) r] } := by
    unfold temporalNormalize
    simp only
    rw [if_neg]
    rw [names_set_colIdx2]
    exact hna
  have hcell : ∀ r ∈ t.rows,
      cellAt (colIdx t c) (r.set (colIdx t c) (coerceDate (cellAt (colIdx t c) r))) =
        coerceDate (cellAt (colIdx t c) r) := by
    intro r hr
    exact getD_set_self _ _ _ (by rw [hrect r hr]; exact hi)
  have hfilter : ((t.rows.map fun r =>
        r.set (colIdx t c) (coerceDate (cellAt (colIdx t c) r))).filter
      fun r => decide (cellAt (colIdx t c) r ≠ Val.vnull)) =
      (t.rows.filter fun r => (parseDate (cellAt (colIdx t c) r)).isSome).map
        fun r => r.set (colIdx t c) (coerceDate (cellAt (colIdx t c) r)) := by
    rw [List.filter_map]
    congr 1
    apply List.filter_congr
    intro r hr
    show decide (cellAt (colIdx t c) (r.set (colIdx t c) _) ≠ Val.vnull) = _
    rw [hcell r hr, decide_coerce_ne_null]
  constructor
  · rw [htn]
    simp only [List.length_map]
    rw [hfilter, List.length_map]
  · intro r' hr'
    rw [htn] at hr'
    simp only at hr'
    obtain ⟨r2, hr2, rfl⟩ := List.mem_map.mp hr'
    rw [hfilter] at hr2
    obtain ⟨r0, hr0, rfl⟩ := List.mem_map.mp hr2
    have hr0' : r0 ∈ t.rows := List.mem_of_mem_filter hr0
    have hps : (parseDate (cellAt (colIdx t c) r0)).isSome := by
      simpa using (List.mem_filter.mp hr0).2
    obtain ⟨d, hd⟩ := Option.isSome_iff_exists.mp hps
    have hlen0 : (r0.set (colIdx t c) (coerceDate (cellAt (colIdx t c) r0))).length =
        t.header.length := by
      rw [List.length_set]; exact hrect r0 hr0'
    have hcell2 : cellAt (colIdx t c)
        (r0.set (colIdx t c) (coerceDate (cellAt (colIdx t c) r0))) = Val.vdate d := by
      rw [hcell r0 hr0', coerceDate, hd]
    refine ⟨d, ?_, ?_⟩
    · rw [cellAt_append_left _ _ _ (by rw [hlen0]; exact hi)]
      exact hcell2
    · have hjj : colIdx (temporalNormalize t c) "año" = t.header.length := by
        rw [htn]
        show ((t.header.set (colIdx t c) (c, Dtype.date)) ++
            [("año", Dtype.num)]).findIdx (fun p => p.1 == "año") = _
        rw [findIdx_append_all_false]
        · simp [List.findIdx_cons, List.length_set]
        · intro p hp
          have hmem : p.1 ∈ (t.header.set (colIdx t c) (c, Dtype.date)).map Prod.fst :=
            List.mem_map_of_mem Prod.fst hp
          rw [names_set_colIdx2] at hmem
          have : p.1 ≠ "año" := fun he => hna (he ▸ hmem)
          simpa using this
      rw [hjj, ← hlen0, cellAt_concat_self]
      rw [yearVal, hcell2]

/-- C7 (witness): on a table whose date column holds one parseable date
and the unparseable string `"N/A"`, exactly one row survives and it
carries the parsed date and its derived year. -/
theorem temporalNormalize_drops_witness :
    (temporalNormalize ⟨[("fecha", Dtype.obj)],
        [[Val.vstr "2023-01-15"], [Val.vstr "N/A"]]⟩ "fecha").rows.length =
      ([[Val.vstr "2023-01-15"], [Val.vstr "N/A"]].filter fun r =>
        (parseDate (cellAt (colIdx ⟨[("fecha", Dtype.obj)],
          [[Val.vstr "2023-01-15"], [Val.vstr "N/A"]]⟩ "fecha") r)).isSome).length ∧
    ∀ r' ∈ (temporalNormalize ⟨[("fecha", Dtype.obj)],
        [[Val.vstr "2023-01-15"], [Val.vstr "N/A"]]⟩ "fecha").rows, ∃ d : PyDate,
      cellAt (colIdx ⟨[("fecha", Dtype.obj)],
        [[Val.vstr "2023-01-15"], [Val.vstr "N/A"]]⟩ "fecha") r' = Val.vdate d ∧
      cellAt (colIdx (temporalNormalize ⟨[("fecha", Dtype.obj)],
        [[Val.vstr "2023-01-15"], [Val.vstr "N/A"]]⟩ "fecha") "año") r' =
        Val.vnum (d.year : ℚ) :=
  temporalNormalize_drops ⟨[("fecha", Dtype.obj)],
    [[Val.vstr "2023-01-15"], [Val.vstr "N/A"]]⟩ "fecha"
    (by decide) (by decide) (by decide)

/-- C10: temporal normalization adds the derived year column literally
named `año` to the fact table itself; the column survives the year and
category filters (which touch only rows, never the header), so the
column re-scan for product/location/region detection and the filtered
table handed to rendering both observe it; when `año` was not already a
column, it is appended and no other column is added or removed. -/
theorem temporalNormalize_frame (t : Table) (c cc : String) (y : Int) (sel : List Val) :
    ("año" ∈ (temporalNormalize t c).names) ∧
    ("año" ∉ t.names → (temporalNormalize t c).names = t.names ++ ["año"]) ∧
    (filterYear (temporalNormalize t c) y).header = (temporalNormalize t c).header ∧
    (filterIsin (temporalNormalize t c) cc sel).header = (temporalNormalize t c).header ∧
    "año" ∈ (filterYear (temporalNormalize t c) y).names ∧
    posibles_productos (filterYear (temporalNormalize t c) y).names =
      posibles_productos (temporalNormalize t c).names ∧
    posibles_locales (filterYear (temporalNormalize t c) y).names =
      posibles_locales (temporalNormalize t c).names ∧
    posibles_regiones (filterYear (temporalNormalize t c) y).names =
      posibles_regiones (temporalNormalize t c).names := by
  refine ⟨(temporalNormalize_names t c).1, (temporalNormalize_names t c).2,
    rfl, rfl, (temporalNormalize_names t c).1, rfl, rfl, rfl⟩

/-- C10 (witness): the frame property at a concrete sales table. -/
theorem temporalNormalize_frame_witness :
    ("año" ∈ (temporalNormalize ⟨[("fecha", Dtype.obj)],
        [[Val.vstr "2023-01-15"]]⟩ "fecha").names) ∧
    ((temporalNormalize ⟨[("fecha", Dtype.obj)],
        [[Val.vstr "2023-01-15"]]⟩ "fecha").names = ["fecha"] ++ ["año"]) := by
  have h := temporalNormalize_frame ⟨[("fecha", Dtype.obj)],
    [[Val.vstr "2023-01-15"]]⟩ "fecha" "producto" 2023 []
  exact ⟨h.1, h.2.1 (by decide)⟩

/-! ### Aggregator (app.py lines 136-173) -/

/-- Month bucket of a date, as a linear index (year*12 + month-1). -/
def monthKey (d : PyDate) : Nat := d.year * 12 + (d.month - 1)

/-- Sum of the amounts of the rows falling in month bucket `k`
(null amounts are skipped, i.e. contribute zero, as pandas `sum` does). -/
def bucketTotal (rows : List (PyDate × Option ℚ)) (k : Nat) : ℚ :=
  ((rows.filter fun r => decide (monthKey r.1 = k)).map fun r => r.2.getD 0).sum

/-- The contiguous list of month buckets `lo..hi`. -/
def monthRange (lo hi : Nat) : List Nat :=
  (List.range (hi + 1 - lo)).map fun i => lo + i

/-- `df_master.set_index(col_fecha).resample('M')[col_monto].sum()`
(app.py line 140): one bucket per calendar month from the earliest to the
latest date present (empty months sum to zero), keyed by (year, month),
in chronological order. -/
def resampleMonthly (rows : List (PyDate × Option ℚ)) : List ((Nat × Nat) × ℚ) :=
  match rows with
  | [] => []
  | r :: rs =>
    (monthRange ((rs.map fun x => monthKey x.1).foldl Nat.min (monthKey r.1))
        ((rs.map fun x => monthKey x.1).foldl Nat.max (monthKey r.1))).map
      fun k => ((k / 12, k % 12 + 1), bucketTotal (r :: rs) k)

/-- Sum of the amounts of the rows whose key equals `k`. -/
def keyTotal (rows : List (Val × Option ℚ)) (k : Val) : ℚ :=
  ((rows.filter fun r => decide (r.1 = k)).map fun r => r.2.getD 0).sum

/-- `df.groupby(col)[col_monto].sum()` over key/amount pairs: one entry
per distinct non-null key (pandas drops null group keys), holding the sum
of its amounts. -/
def groupbySum (rows : List (Val × Option ℚ)) : List (Val × ℚ) :=
  (dedupFirst ((rows.map Prod.fst).filter fun v => decide (v ≠ Val.vnull))).map
    fun k => (k, keyTotal rows k)

/-- `sort_values(col_monto, ascending=False)`: descending by total. -/
def byTotalDesc (a b : Val × ℚ) : Prop := b.2 ≤ a.2

instance : DecidableRel byTotalDesc := fun a b => inferInstanceAs (Decidable (b.2 ≤ a.2))

instance : IsTotal (Val × ℚ) byTotalDesc := ⟨fun a b => le_total b.2 a.2⟩

instance : IsTrans (Val × ℚ) byTotalDesc := ⟨fun _ _ _ h1 h2 => le_trans h2 h1⟩

/-- Category aggregation: group by the categorical column, sum the amount
per group, sort descending by the sum (ties are left in group order; the
source's unstable quicksort leaves tie order unspecified). -/
def categoryAgg (rows : List (Val × Option ℚ)) : List (Val × ℚ) :=
  List.insertionSort byTotalDesc (groupbySum rows)

/-- `df_top`/`df_loc` (app.py lines 157 and 164): category aggregation
truncated to the top 10. -/
def df_top (rows : List (Val × Option ℚ)) : List (Val × ℚ) :=
  (categoryAgg rows).take 10

/-- `df_reg` (app.py line 171): category aggregation, full distribution. -/
def df_reg (rows : List (Val × Option ℚ)) : List (Val × ℚ) :=
  categoryAgg rows

/-! #### Bucket-sum lemmas -/

theorem foldl_min_le_init (l : List Nat) (a : Nat) : l.foldl Nat.min a ≤ a := by
  induction l generalizing a with
  | nil => exact Nat.le_refl a
  | cons k l ih => exact Nat.le_trans (ih (Nat.min a k)) (Nat.min_le_left a k)

theorem init_le_foldl_max (l : List Nat) (a : Nat) : a ≤ l.foldl Nat.max a := by
  induction l generalizing a with
  | nil => exact Nat.le_refl a
  | cons k l ih => exact Nat.le_trans (Nat.le_max_left a k) (ih (Nat.max a k))

theorem foldl_min_le_mem_pairs (rs : List (PyDate × Option ℚ))
    (x : PyDate × Option ℚ) (hx : x ∈ rs) (a : Nat) :
    (rs.map fun y => monthKey y.1).foldl Nat.min a ≤ monthKey x.1 := by
  induction rs generalizing a with
  | nil => cases hx
  | cons k l ih =>
    rw [List.map_cons, List.foldl_cons]
    rcases List.mem_cons.mp hx with rfl | hx2
    · exact Nat.le_trans (foldl_min_le_init _ _) (Nat.min_le_right a (monthKey x.1))
    · exact ih hx2 _

theorem mem_le_foldl_max_pairs (rs : List (PyDate × Option ℚ))
    (x : PyDate × Option ℚ) (hx : x ∈ rs) (a : Nat) :
    monthKey x.1 ≤ (rs.map fun y => monthKey y.1).foldl Nat.max a := by
  induction rs generalizing a with
  | nil => cases hx
  | cons k l ih =>
    rw [List.map_cons, List.foldl_cons]
    rcases List.mem_cons.mp hx with rfl | hx2
    · exact Nat.le_trans (Nat.le_max_right a (monthKey x.1)) (init_le_foldl_max _ _)
    · exact ih hx2 _

theorem mem_monthRange {lo hi k : Nat} : k ∈ monthRange lo hi ↔ lo ≤ k ∧ k ≤ hi := by
  simp only [monthRange, List.mem_map, List.mem_range]
  constructor
  · rintro ⟨i, hi2, rfl⟩; omega
  · rintro ⟨h1, h2⟩; exact ⟨k - lo, by omega, by omega⟩

theorem nodup_monthRange (lo hi : Nat) : (monthRange lo hi).Nodup :=
  (List.nodup_range _).map fun a b h => by omega

theorem sum_map_add {α : Type} (f g : α → ℚ) (l : List α) :
    (l.map fun x => f x + g x).sum = (l.map f).sum + (l.map g).sum := by
  induction l with
  | nil => simp
  | cons a l ih => simp only [List.map_cons, List.sum_cons, ih]; ring

theorem sum_map_ite_zero_of_not_mem (κ : Nat) (a : ℚ) (K : List Nat) (hκ : κ ∉ K) :
    (K.map fun k => if κ = k then a else 0).sum = 0 := by
  induction K with
  | nil => rfl
  | cons k K ih =>
    have hne : κ ≠ k := fun he => hκ (he ▸ List.mem_cons_self k K)
    simp only [List.map_cons, List.sum_cons, if_neg hne,
      ih fun hm => hκ (List.mem_cons_of_mem k hm)]
    ring

theorem sum_map_ite_zero (κ : Nat) (a : ℚ) (K : List Nat) (hnd : K.Nodup)
    (hκ : κ ∈ K) : (K.map fun k => if κ = k then a else 0).sum = a := by
  induction K with
  | nil => cases hκ
  | cons k K ih =>
    rcases List.mem_cons.mp hκ with rfl | hm
    · rw [List.map_cons, List.sum_cons, if_pos rfl,
        sum_map_ite_zero_of_not_mem _ _ _ (List.nodup_cons.mp hnd).1, add_zero]
    · have hne : κ ≠ k := fun he => (List.nodup_cons.mp hnd).1 (he ▸ hm)
      rw [List.map_cons, List.sum_cons, if_neg hne,
        ih (List.nodup_cons.mp hnd).2 hm, zero_add]

theorem bucketTotal_cons (r : PyDate × Option ℚ) (rows : List (PyDate × Option ℚ))
    (k : Nat) : bucketTotal (r :: rows) k =
      (if monthKey r.1 = k then r.2.getD 0 else 0) + bucketTotal rows k := by
  unfold bucketTotal
  rw [List.filter_cons]
  by_cases h : monthKey r.1 = k <;> simp [h]

theorem sum_buckets (K : List Nat) (hnd : K.Nodup) :
    ∀ rows : List (PyDate × Option ℚ), (∀ r ∈ rows, monthKey r.1 ∈ K) →
      (K.map (bucketTotal rows)).sum = (rows.map fun r => r.2.getD 0).sum := by
  intro rows
  induction rows with
  | nil =>
    intro _
    have hz : ∀ x ∈ K.map (bucketTotal ([] : List (PyDate × Option ℚ))), x = 0 := by
      intro x hx
      obtain ⟨k, _, rfl⟩ := List.mem_map.mp hx
      simp [bucketTotal]
    rw [List.sum_eq_zero hz]
    simp
  | cons r rows ih =>
    intro hcov
    have hK : monthKey r.1 ∈ K := hcov r (List.mem_cons_self r rows)
    have hsplit : K.map (bucketTotal (r :: rows)) =
        K.map fun k => (if monthKey r.1 = k then r.2.getD 0 else 0) + bucketTotal rows k :=
      List.map_congr_left fun k _ => bucketTotal_cons r rows k
    rw [hsplit, sum_map_add, sum_map_ite_zero _ _ _ hnd hK,
      ih fun x hx => hcov x (List.mem_cons_of_mem r hx),
      List.map_cons, List.sum_cons]

/-- C9: the sum over all monthly time-bucketed totals equals the direct
sum of the amount column over the same filtered rows; null amounts
contribute zero. -/
theorem resampleMonthly_total (rows : List (PyDate × Option ℚ)) :
    ((resampleMonthly rows).map Prod.snd).sum = (rows.map fun r => r.2.getD 0).sum := by
  cases rows with
  | nil => simp [resampleMonthly]
  | cons r rs =>
    rw [resampleMonthly]
    rw [List.map_map]
    have hcomp : (Prod.snd ∘ fun k : Nat => ((k / 12, k % 12 + 1), bucketTotal (r :: rs) k)) =
        bucketTotal (r :: rs) := rfl
    rw [hcomp]
    apply sum_buckets _ (nodup_monthRange _ _)
    intro x hx
    rw [mem_monthRange]
    constructor
    · rcases List.mem_cons.mp hx with rfl | hx'
      · exact foldl_min_le_init _ _
      · exact foldl_min_le_mem_pairs rs x hx' _
    · rcases List.mem_cons.mp hx with rfl | hx'
      · exact init_le_foldl_max _ _
      · exact mem_le_foldl_max_pairs rs x hx' _

theorem categoryAgg_region_example :
    categoryAgg [(Val.vstr "North", some 10), (Val.vstr "North", some 20),
        (Val.vstr "South", some 5)] =
      [(Val.vstr "North", 30), (Val.vstr "South", 5)] := by
  have h1 : dedupFirst (([(Val.vstr "North", some (10 : ℚ)), (Val.vstr "North", some 20),
      (Val.vstr "South", some 5)].map Prod.fst).filter fun v => decide (v ≠ Val.vnull)) =
      [Val.vstr "North", Val.vstr "South"] := by decide
  rw [categoryAgg, groupbySum, h1]
  have h2 : keyTotal [(Val.vstr "North", some 10), (Val.vstr "North", some 20),
      (Val.vstr "South", some 5)] (Val.vstr "North") = 30 := by
    have hf : ([(Val.vstr "North", some (10 : ℚ)), (Val.vstr "North", some 20),
        (Val.vstr "South", some 5)].filter fun r => decide (r.1 = Val.vstr "North")) =
        [(Val.vstr "North", some 10), (Val.vstr "North", some 20)] := by decide
    rw [keyTotal, hf]
    norm_num
  have h3 : keyTotal [(Val.vstr "North", some 10), (Val.vstr "North", some 20),
      (Val.vstr "South", some 5)] (Val.vstr "South") = 5 := by
    have hf : ([(Val.vstr "North", some (10 : ℚ)), (Val.vstr "North", some 20),
        (Val.vstr "South", some 5)].filter fun r => decide (r.1 = Val.vstr "South")) =
        [(Val.vstr "South", some 5)] := by decide
    rw [keyTotal, hf]
    norm_num
  simp only [List.map_cons, List.map_nil, h2, h3]
  rw [List.insertionSort, List.insertionSort, List.insertionSort]
  simp [List.orderedInsert, byTotalDesc]
  norm_num

/-- C8: category aggregation is sorted descending by the per-group sum,
each entry carries the sum of its key's amounts, the region summary is
the full distribution over the distinct (non-null) keys, product and
location summaries are its top-10 truncation, and the spec's region
scenario computes as claimed. -/
theorem categoryAgg_props (rows : List (Val × Option ℚ)) :
    List.Sorted byTotalDesc (df_reg rows) ∧
    (∀ p ∈ df_reg rows, p.2 = keyTotal rows p.1) ∧
    ((df_reg rows).map Prod.fst).Perm
      (dedupFirst ((rows.map Prod.fst).filter fun v => decide (v ≠ Val.vnull))) ∧
    df_top rows = (df_reg rows).take 10 ∧ (df_top rows).length ≤ 10 ∧
    df_reg [(Val.vstr "North", some 10), (Val.vstr "North", some 20),
        (Val.vstr "South", some 5)] =
      [(Val.vstr "North", 30), (Val.vstr "South", 5)] := by
  refine ⟨List.sorted_insertionSort byTotalDesc _, ?_, ?_, rfl, ?_,
    categoryAgg_region_example⟩
  · intro p hp
    have hp2 : p ∈ groupbySum rows := (List.perm_insertionSort byTotalDesc _).mem_iff.mp hp
    obtain ⟨k, _, rfl⟩ := List.mem_map.mp hp2
    rfl
  · have hperm : (df_reg rows).Perm (groupbySum rows) :=
      List.perm_insertionSort byTotalDesc _
    have h2 := hperm.map Prod.fst
    refine h2.trans ?_
    rw [groupbySum, List.map_map]
    have : (Prod.fst ∘ fun k : Val => (k, keyTotal rows k)) = id := rfl
    rw [this, List.map_id]
  · rw [df_top]
    exact List.length_take_le 10 _

/-- C8 (witness): the aggregation properties at a concrete run. -/
theorem categoryAgg_props_witness :
    List.Sorted byTotalDesc (df_reg [(Val.vstr "A", some 1)]) ∧
    (∀ p ∈ df_reg [(Val.vstr "A", some 1)],
      p.2 = keyTotal [(Val.vstr "A", some 1)] p.1) :=
  ⟨(categoryAgg_props [(Val.vstr "A", some 1)]).1,
   (categoryAgg_props [(Val.vstr "A", some 1)]).2.1⟩

/-! ### Claim C1: the spec's end-to-end scenario -/

/-- C1 (counterexample): on the canonicalized scenario columns
`[fecha_de_venta, monto_total]` the amount detector picks
`fecha_de_venta` — the first column containing the keyword `venta` — not
`monto_total` as the claim states. -/
theorem scenario_amount_not_monto :
    col_monto (["Fecha de Venta", "Monto Total"].map standardizeName) ≠
      some "monto_total" ∧
    col_monto (["Fecha de Venta", "Monto Total"].map standardizeName) =
      some "fecha_de_venta" := by
  constructor <;> decide

/-- C1 (amended): the scenario columns canonicalize to `fecha_de_venta`
and `monto_total`; the classifier resolves the date role to
`fecha_de_venta` but resolves the amount role to `fecha_de_venta` as
well (first column containing `venta`), not `monto_total`; with
`monto_total` supplied as the amount column, monthly aggregation of the
scenario rows yields [(2023-01, 150), (2023-02, 30)]. -/
theorem scenario_pipeline_amended :
    ["Fecha de Venta", "Monto Total"].map standardizeName =
      ["fecha_de_venta", "monto_total"] ∧
    col_fecha ["fecha_de_venta", "monto_total"] = some "fecha_de_venta" ∧
    col_monto ["fecha_de_venta", "monto_total"] = some "fecha_de_venta" ∧
    resampleMonthly [(⟨2023, 1, 15⟩, some 100), (⟨2023, 1, 20⟩, some 50),
        (⟨2023, 2, 1⟩, some 30)] =
      [((2023, 1), 150), ((2023, 2), 30)] := by
  refine ⟨by decide, by decide, by decide, ?_⟩
  norm_num [resampleMonthly, monthRange, bucketTotal, monthKey, List.range_succ]

/-! ### Table loader (`load_file`, app.py lines 11-22) -/

/-- JSON value as produced by `json.load`; records are objects whose
fields may nest further objects (arrays inside records are outside this
model — the spec restricts JSON input to flat-ish records). -/
inductive Json where
  | jnull
  | jbool (b : Bool)
  | jnum (q : ℚ)
  | jstr (s : String)
  | jobj (fields : List (String × Json))

/-- Dotted-path key for a nested field. -/
def dotKey (pre k : String) : String := if pre = "" then k else pre ++ "." ++ k

mutual

/-- Modelled from the spec (library collaborator): the flattening core of
`pd.json_normalize` — scalars become one cell under the accumulated
dotted-path name, nested objects recurse with the extended path. -/
def flattenJson (pre : String) : Json → List (String × Val)
  | .jobj fs => flattenFields pre fs
  | .jnull => [(pre, Val.vnull)]
  | .jbool b => [(pre, Val.vbool b)]
  | .jnum q => [(pre, Val.vnum q)]
  | .jstr s => [(pre, Val.vstr s)]

/-- Flattening of an object's field list, in field order. -/
def flattenFields (pre : String) : List (String × Json) → List (String × Val)
  | [] => []
  | (k, v) :: rest => flattenJson (dotKey pre k) v ++ flattenFields pre rest

end

/-- First value under a flattened column name in a record. -/
def lookupVal (n : String) (ps : List (String × Val)) : Option Val :=
  (ps.find? fun p => p.1 == n).map Prod.snd

def isNumOrNull : Val → Bool
  | .vnull => true
  | .vnum _ => true
  | _ => false

def isDateOrNull : Val → Bool
  | .vnull => true
  | .vdate _ => true
  | _ => false

/-- Modelled from the spec (library collaborator): pandas dtype inference
for a loaded column — all numeric-or-null is numeric, all date-or-null is
datetime, anything else (text or mixed) is object. -/
def inferDtype (vals : List Val) : Dtype :=
  if vals.all isNumOrNull then Dtype.num
  else if vals.all isDateOrNull then Dtype.date
  else Dtype.obj

/-- Modelled from the spec (library collaborator): `pd.json_normalize` on
a list of records — the header is the first-appearance union of the
flattened dotted-path keys, each row reads its keys with null for the
missing ones. -/
def json_normalize (records : List Json) : Table :=
  let pairsList := records.map (flattenJson "")
  let names := dedupFirst ((pairsList.map fun ps => ps.map Prod.fst).flatten)
  { header := names.map fun n =>
      (n, inferDtype (pairsList.map fun ps => (lookupVal n ps).getD Val.vnull)),
    rows := pairsList.map fun ps => names.map fun n => (lookupVal n ps).getD Val.vnull }

/-- An uploaded file: its name plus the outputs the external format
parsers (`pd.read_csv`, `pd.read_excel`, `json.load`) would produce for
its byte stream — the loader's own logic is only the dispatch. -/
structure UploadFile where
  name : String
  csvTable : Table
  excelTable : Table
  jsonData : List Json

/-- Model of Python `os.path.splitext(name)[1]`: the suffix from the last
dot, empty when there is no dot or only leading dots. -/
def splitext_ext (s : String) : String :=
  match (s.toList.reverse.findIdx? fun c => c == '.') with
  | none => ""
  | some j =>
    if (s.toList.take (s.toList.length - 1 - j)).all fun c => c == '.' then ""
    else String.mk (s.toList.drop (s.toList.length - 1 - j))

/-- Model of `str.lower` on a whole string. -/
def lowerStr (s : String) : String := String.mk (s.toList.map pyToLower)

/-- `load_file` (app.py lines 11-22): dispatch on the lower-cased
extension; `.csv`, `.xls`/`.xlsx` and `.json` load via the respective
parser (JSON through flattening normalization), any other extension
raises `ValueError`. -/
def load_file (f : UploadFile) : Except String Table :=
  if lowerStr (splitext_ext f.name) = ".csv" then Except.ok f.csvTable
  else if lowerStr (splitext_ext f.name) = ".xls" ∨
      lowerStr (splitext_ext f.name) = ".xlsx" then Except.ok f.excelTable
  else if lowerStr (splitext_ext f.name) = ".json" then
    Except.ok (json_normalize f.jsonData)
  else Except.error ("Extensión " ++ lowerStr (splitext_ext f.name) ++ " no soportada")

/-- C6: the loader yields a table exactly when the declared (lower-cased)
extension is one of .csv/.xls/.xlsx/.json — JSON loading flattens nested
objects under dotted-path names — and fails with the unsupported-format
error for any extension outside that set. -/
theorem load_file_dispatch (f : UploadFile) :
    (lowerStr (splitext_ext f.name) ∈ [".csv", ".xls", ".xlsx", ".json"] →
      ∃ t : Table, load_file f = Except.ok t) ∧
    (lowerStr (splitext_ext f.name) ∉ [".csv", ".xls", ".xlsx", ".json"] →
      load_file f = Except.error
        ("Extensión " ++ lowerStr (splitext_ext f.name) ++ " no soportada")) ∧
    (lowerStr (splitext_ext f.name) = ".json" →
      load_file f = Except.ok (json_normalize f.jsonData)) ∧
    flattenJson "" (Json.jobj [("a", Json.jobj [("b", Json.jnum 1)])]) =
      [("a.b", Val.vnum 1)] := by
  refine ⟨?_, ?_, ?_, ?_⟩
  · intro hmem
    rw [load_file]
    split
    · exact ⟨f.csvTable, rfl⟩
    · split
      · exact ⟨f.excelTable, rfl⟩
      · split
        · exact ⟨json_normalize f.jsonData, rfl⟩
        · next h1 h2 h3 =>
          simp only [List.mem_cons, List.not_mem_nil, or_false] at hmem
          rcases hmem with h | h | h | h
          · exact absurd h h1
          · exact absurd (Or.inl h) h2
          · exact absurd (Or.inr h) h2
          · exact absurd h h3
  · intro hmem
    rw [load_file]
    split
    · next h => exact absurd (by simp [h]) hmem
    · split
      · next h =>
        rcases h with h | h <;> exact absurd (by simp [h]) hmem
      · split
        · next h => exact absurd (by simp [h]) hmem
        · rfl
  · intro hj
    rw [load_file, hj]
    simp
  · rw [flattenJson, flattenFields, flattenJson, flattenFields, flattenFields]
    rfl

/-- C6 (witness): an upper-cased `.JSON` file loads through the JSON
path, and an unsupported `.txt` extension errors. -/
theorem load_file_dispatch_witness :
    load_file ⟨"ventas.JSON", ⟨[], []⟩, ⟨[], []⟩, [Json.jobj [("a", Json.jnum 1)]]⟩ =
      Except.ok (json_normalize [Json.jobj [("a", Json.jnum 1)]]) ∧
    load_file ⟨"datos.txt", ⟨[], []⟩, ⟨[], []⟩, []⟩ =
      Except.error ("Extensión " ++ lowerStr (splitext_ext "datos.txt") ++
        " no soportada") :=
  ⟨(load_file_dispatch ⟨"ventas.JSON", ⟨[], []⟩, ⟨[], []⟩,
      [Json.jobj [("a", Json.jnum 1)]]⟩).2.2.1 (by decide),
   (load_file_dispatch ⟨"datos.txt", ⟨[], []⟩, ⟨[], []⟩, []⟩).2.1 (by decide)⟩

end SalesDash
